import Mathlib

/-!
Verification of the cela-rose-sale-api core subsystems:
the serialized order-write queue (`queueOrderWrite` / `processOrderQueue`
in the sheets module) and the TTL cache (`CacheManager` in `cache.ts`).

The queue is embedded as a pure batch-execution function mirroring the
retry loop of `processOrderQueue`, together with a labelled transition
system over the module state (`orderWriteQueue`, `orderWriteActive`, the
running drain instances and the history of settled promises).  The cache
is embedded as a record of the `CacheManager` fields with each public
method a pure state transformer; `Date.now()` becomes an explicit `now`
argument and the result of invoking a caller-supplied refresh function is
an explicit `Except` value.
-/

namespace OrderQueue

/-- A queued order write, mirroring `OrderWriteTask` (the `resolve` /
`reject` callbacks are modelled by the settlement log of the transition
system below). -/
structure OrderWriteTask where
  sheetId : String
  sheetName : String
  rows : List (List String)
  deriving Repr, DecidableEq

/-- The argument triple of one `appendToSheet` call issued by the drain
loop. -/
structure AppendCall where
  sheetId : String
  sheetName : String
  rows : List (List String)
  deriving Repr, DecidableEq

/-- How a batch's promises are settled: `task.resolve(true)` or
`task.reject(err)`; errors thrown by the append primitive are modelled as
natural numbers. -/
inductive Settlement where
  | resolvedTrue : Settlement
  | rejectedWith (err : Nat) : Settlement
  deriving Repr, DecidableEq

/-- Observable outcome of the retry loop of `processOrderQueue` on one
batch: how the batch's tasks were settled (`none` only in the dead case
where the loop is entered with `attempts ≥ 3`, which never happens from
the real entry point `attempts = 0`), how many `appendToSheet` calls were
made, and the backoff sleeps (in ms) performed between attempts. -/
structure BatchRun where
  settlement : Option Settlement
  appendCalls : Nat
  delays : List Nat
  deriving Repr, DecidableEq

/-- The retry loop `while (attempts < 3 && !success)` of
`processOrderQueue`, lines 32-44.  `ar n` is the result of the `n`-th
`appendToSheet` call for this batch (`.ok ()` = returns, `.error e` =
throws `e`).  Since `attempts` is incremented exactly on each failure and
every call before a success fails, the current call's index equals the
current value of `attempts`. -/
def runAttempts (ar : Nat → Except Nat Unit) (attempts : Nat) : BatchRun :=
  if attempts < 3 then
    match ar attempts with
    | .ok _ =>
        -- success = true; batch.forEach(task => task.resolve(true))
        { settlement := some .resolvedTrue, appendCalls := 1, delays := [] }
    | .error e =>
        -- attempts++
        if attempts + 1 ≥ 3 then
          -- batch.forEach(task => task.reject(err))
          { settlement := some (.rejectedWith e), appendCalls := 1, delays := [] }
        else
          -- await setTimeout(1000 * attempts), then next iteration
          let r := runAttempts ar (attempts + 1)
          { settlement := r.settlement
            appendCalls := r.appendCalls + 1
            delays := 1000 * (attempts + 1) :: r.delays }
  else
    { settlement := none, appendCalls := 0, delays := [] }
termination_by 3 - attempts

/-- The retry loop as entered by `processOrderQueue` (`attempts = 0`). -/
def runBatch (ar : Nat → Except Nat Unit) : BatchRun :=
  runAttempts ar 0

/-- Lines 21-25: the inner `while` loop shifts every currently queued
task into `batch`, leaving the queue empty. -/
def claimBatch (q : List OrderWriteTask) : List OrderWriteTask × List OrderWriteTask :=
  (q, [])

/-- Lines 26-29: the single merged `appendToSheet` request for a batch
`first :: others`: `sheetId` and `sheetName` are taken from `batch[0]`
and `allRows = batch.flatMap(task => task.rows)`. -/
def batchRequest (first : OrderWriteTask) (others : List OrderWriteTask) : AppendCall :=
  { sheetId := first.sheetId
    sheetName := first.sheetName
    rows := ((first :: others).map (fun t => t.rows)).flatten }

theorem runAttempts_eq (ar : Nat → Except Nat Unit) (attempts : Nat) :
    runAttempts ar attempts =
      if attempts < 3 then
        match ar attempts with
        | .ok _ => { settlement := some .resolvedTrue, appendCalls := 1, delays := [] }
        | .error e =>
            if attempts + 1 ≥ 3 then
              { settlement := some (.rejectedWith e), appendCalls := 1, delays := [] }
            else
              let r := runAttempts ar (attempts + 1)
              { settlement := r.settlement
                appendCalls := r.appendCalls + 1
                delays := 1000 * (attempts + 1) :: r.delays }
      else { settlement := none, appendCalls := 0, delays := [] } := by
  rw [runAttempts]

/-- Entered at `attempts = 0`, the retry loop always settles the batch. -/
theorem runBatch_settles (ar : Nat → Except Nat Unit) :
    ∃ st, (runBatch ar).settlement = some st := by
  unfold runBatch
  rw [runAttempts_eq]
  simp only [Nat.zero_lt_succ, if_pos]
  cases h0 : ar 0 with
  | ok _ => exact ⟨.resolvedTrue, rfl⟩
  | error e0 =>
    simp only [show ¬(0 + 1 ≥ 3) by decide, if_neg, if_false]
    rw [runAttempts_eq]
    simp only [show (1 : Nat) < 3 by decide, if_pos]
    cases h1 : ar 1 with
    | ok _ => exact ⟨.resolvedTrue, rfl⟩
    | error e1 =>
      simp only [show ¬(1 + 1 ≥ 3) by decide, if_neg, if_false]
      rw [runAttempts_eq]
      simp only [show (2 : Nat) < 3 by decide, if_pos]
      cases h2 : ar 2 with
      | ok _ => exact ⟨.resolvedTrue, rfl⟩
      | error e2 =>
        simp only [show 2 + 1 ≥ 3 by decide, if_pos]
        exact ⟨.rejectedWith e2, rfl⟩

/-- Module state of the sheets module: `orderWriteQueue`, `orderWriteActive`,
the batches claimed by currently-running drain-loop instances, plus two
observable histories: settled promises (in settlement order) and the
arguments of all `queueOrderWrite` calls (in call order). -/
structure QueueState where
  queue : List OrderWriteTask
  active : Bool
  drains : List (List OrderWriteTask)
  settled : List (OrderWriteTask × Settlement)
  enqueuedLog : List OrderWriteTask
  deriving Repr, DecidableEq

/-- Module load: empty queue, `orderWriteActive = false`. -/
def initState : QueueState :=
  { queue := [], active := false, drains := [], settled := [], enqueuedLog := [] }

/-- Settlement broadcast `batch.forEach(task => task.resolve(true))` or
`batch.forEach(task => task.reject(err))`:
every task of the batch gets the same settlement. -/
def settleAll (b : List OrderWriteTask) (st : Settlement) :
    List (OrderWriteTask × Settlement) :=
  b.map (fun t => (t, st))

/-- The call `queueOrderWrite(sheetId, sheetName, rows)` (lines 51-56) followed by
the synchronous prefix of the triggered `processOrderQueue()` call: push
the task; then, unless `orderWriteActive` is set or the queue is empty,
set the flag and claim the whole queue as a new drain instance's first
batch (the drain runs synchronously up to its first `await`). -/
def enqueue (s : QueueState) (t : OrderWriteTask) : QueueState :=
  let s1 : QueueState :=
    { s with queue := s.queue ++ [t], enqueuedLog := s.enqueuedLog ++ [t] }
  if s1.active = true ∨ s1.queue = [] then s1
  else
    { s1 with
      active := true
      drains := s1.drains ++ [(claimBatch s1.queue).1]
      queue := (claimBatch s1.queue).2 }

/-- One step of the cooperative execution: an arbitrary `queueOrderWrite`
call, or a running drain instance completing its current batch.  On batch
completion the instance settles every task of the batch identically
(`runBatch` with that batch's append-primitive behaviour `ar`), re-checks
the `while (orderWriteQueue.length > 0)` condition, and either claims the
now-pending tasks as the next batch (`finish_more`) or exits resetting
`orderWriteActive` (`finish_done`). -/
inductive QStep : QueueState → QueueState → Prop where
  | enqueue (s : QueueState) (t : OrderWriteTask) : QStep s (OrderQueue.enqueue s t)
  | finish_more (s : QueueState) (b : List OrderWriteTask)
      (rest : List (List OrderWriteTask)) (ar : Nat → Except Nat Unit)
      (st : Settlement) (hd : s.drains = b :: rest) (hq : s.queue ≠ [])
      (hst : (runBatch ar).settlement = some st) :
      QStep s { queue := [], active := s.active, drains := s.queue :: rest,
                settled := s.settled ++ settleAll b st,
                enqueuedLog := s.enqueuedLog }
  | finish_done (s : QueueState) (b : List OrderWriteTask)
      (rest : List (List OrderWriteTask)) (ar : Nat → Except Nat Unit)
      (st : Settlement) (hd : s.drains = b :: rest) (hq : s.queue = [])
      (hst : (runBatch ar).settlement = some st) :
      QStep s { queue := s.queue, active := false, drains := rest,
                settled := s.settled ++ settleAll b st,
                enqueuedLog := s.enqueuedLog }

/-- States reachable from module load by any interleaving of calls and
drain completions. -/
inductive QReach : QueueState → Prop where
  | init : QReach initState
  | step {s s' : QueueState} : QReach s → QStep s s' → QReach s'

/-- The module invariant: the `active` flag is set exactly while a drain
instance runs, at most one drain instance exists, an idle module has an
empty queue, and every enqueued task is in exactly one place — already
settled, claimed in-flight, or still pending — in enqueue order. -/
def Inv (s : QueueState) : Prop :=
  (s.active = true ↔ s.drains ≠ []) ∧
  s.drains.length ≤ 1 ∧
  (s.active = false → s.queue = []) ∧
  s.settled.map Prod.fst ++ s.drains.flatten ++ s.queue = s.enqueuedLog

theorem settleAll_map_fst (b : List OrderWriteTask) (st : Settlement) :
    (settleAll b st).map Prod.fst = b := by
  induction b with
  | nil => rfl
  | cons x xs ih =>
    simp only [settleAll, List.map_cons] at ih ⊢
    rw [ih]

/-- While a drain is active, `queueOrderWrite` only pushes the task: the
triggered `processOrderQueue` returns at its first guard. -/
theorem enqueue_while_active {s : QueueState} (t : OrderWriteTask)
    (h : s.active = true) :
    enqueue s t =
      { s with queue := s.queue ++ [t], enqueuedLog := s.enqueuedLog ++ [t] } := by
  simp [enqueue, h]

/-- With no drain active, `queueOrderWrite` pushes the task and the
triggered `processOrderQueue` claims the whole queue as the first batch
of a new drain instance. -/
theorem enqueue_while_idle {s : QueueState} (t : OrderWriteTask)
    (h : s.active = false) :
    enqueue s t =
      { queue := [], active := true, drains := s.drains ++ [s.queue ++ [t]],
        settled := s.settled, enqueuedLog := s.enqueuedLog ++ [t] } := by
  unfold enqueue
  rw [if_neg]
  · simp [claimBatch]
  · simp [h]

theorem inv_init : Inv initState := by
  simp [Inv, initState]

theorem inv_step {s s' : QueueState} (hinv : Inv s) (hstep : QStep s s') : Inv s' := by
  obtain ⟨hflag, hlen, hidle, hcons⟩ := hinv
  cases hstep with
  | enqueue t =>
    cases hact : s.active with
    | true =>
      rw [enqueue_while_active t hact]
      refine ⟨by simpa using hflag, hlen, ?_, ?_⟩
      · intro h; simp at h; rw [hact] at h; exact absurd h (by simp)
      · simpa [List.append_assoc] using congrArg (· ++ [t]) hcons
    | false =>
      have hqnil : s.queue = [] := hidle hact
      have hdnil : s.drains = [] := by
        by_contra hne
        rw [hflag.mpr hne] at hact
        exact absurd hact (by simp)
      rw [enqueue_while_idle t hact]
      refine ⟨by simp, by simp [hdnil], by simp, ?_⟩
      simp only [hdnil, hqnil] at hcons ⊢
      simpa [List.append_assoc] using congrArg (· ++ [t]) hcons
  | finish_more b rest ar st hd hq hst =>
    have hrest : rest = [] := by
      have := hlen
      rw [hd] at this
      simpa using this
    subst hrest
    refine ⟨?_, by simp, by simp [hq], ?_⟩
    · constructor
      · intro _; simp
      · intro _
        exact hflag.mpr (by rw [hd]; simp)
    · rw [hd] at hcons
      simp only [List.map_append, settleAll_map_fst, List.flatten] at hcons ⊢
      simp only [List.flatten_cons, List.flatten_nil, List.append_nil] at hcons ⊢
      simp [List.append_assoc] at hcons ⊢
      exact hcons
  | finish_done b rest ar st hd hq hst =>
    have hrest : rest = [] := by
      have := hlen
      rw [hd] at this
      simpa using this
    subst hrest
    refine ⟨by simp, by simp, fun _ => hq, ?_⟩
    rw [hd, hq] at hcons
    simp only [List.map_append, settleAll_map_fst] at hcons ⊢
    simp only [List.flatten_cons, List.flatten_nil, List.append_nil] at hcons ⊢
    simpa [List.append_assoc, hq] using hcons

theorem reach_inv {s : QueueState} (h : QReach s) : Inv s := by
  induction h with
  | init => exact inv_init
  | step _ hstep ih => exact inv_step ih hstep

/-- Executable form of one batch completion by the running drain
instance (`ar` is the append primitive's behaviour for that batch); the
identity when no drain is running. -/
def finishOnce (ar : Nat → Except Nat Unit) (s : QueueState) : QueueState :=
  match s.drains, (runBatch ar).settlement with
  | b :: rest, some st =>
      if s.queue = [] then
        { queue := s.queue, active := false, drains := rest,
          settled := s.settled ++ settleAll b st, enqueuedLog := s.enqueuedLog }
      else
        { queue := [], active := s.active, drains := s.queue :: rest,
          settled := s.settled ++ settleAll b st, enqueuedLog := s.enqueuedLog }
  | _, _ => s

/-- Letting the drain loop run until it exits: from any reachable state
at most two batch completions remain. -/
def drainAll (ar0 ar1 : Nat → Except Nat Unit) (s : QueueState) : QueueState :=
  finishOnce ar1 (finishOnce ar0 s)

theorem finishOnce_of_no_drain (ar : Nat → Except Nat Unit) {s : QueueState}
    (h : s.drains = []) : finishOnce ar s = s := by
  unfold finishOnce
  rw [h]

theorem finishOnce_done (ar : Nat → Except Nat Unit) {s : QueueState}
    {b : List OrderWriteTask} {rest : List (List OrderWriteTask)} {st : Settlement}
    (hd : s.drains = b :: rest) (hq : s.queue = [])
    (hst : (runBatch ar).settlement = some st) :
    finishOnce ar s =
      { queue := s.queue, active := false, drains := rest,
        settled := s.settled ++ settleAll b st, enqueuedLog := s.enqueuedLog } := by
  unfold finishOnce
  rw [hd, hst]
  simp [hq]

theorem finishOnce_more (ar : Nat → Except Nat Unit) {s : QueueState}
    {b : List OrderWriteTask} {rest : List (List OrderWriteTask)} {st : Settlement}
    (hd : s.drains = b :: rest) (hq : s.queue ≠ [])
    (hst : (runBatch ar).settlement = some st) :
    finishOnce ar s =
      { queue := [], active := s.active, drains := s.queue :: rest,
        settled := s.settled ++ settleAll b st, enqueuedLog := s.enqueuedLog } := by
  unfold finishOnce
  rw [hd, hst]
  simp [hq]

theorem finishOnce_step (ar : Nat → Except Nat Unit) {s : QueueState}
    (h : s.drains ≠ []) : QStep s (finishOnce ar s) := by
  obtain ⟨st, hst⟩ := runBatch_settles ar
  obtain ⟨b, rest, hd⟩ : ∃ b rest, s.drains = b :: rest := by
    cases hdr : s.drains with
    | nil => exact absurd hdr h
    | cons b rest => exact ⟨b, rest, rfl⟩
  by_cases hq : s.queue = []
  · rw [finishOnce_done ar hd hq hst]
    exact QStep.finish_done s b rest ar st hd hq hst
  · rw [finishOnce_more ar hd hq hst]
    exact QStep.finish_more s b rest ar st hd hq hst

theorem finishOnce_star (ar : Nat → Except Nat Unit) (s : QueueState) :
    Relation.ReflTransGen QStep s (finishOnce ar s) := by
  by_cases h : s.drains = []
  · rw [finishOnce_of_no_drain ar h]
  · exact Relation.ReflTransGen.single (finishOnce_step ar h)

theorem finishOnce_log (ar : Nat → Except Nat Unit) (s : QueueState) :
    (finishOnce ar s).enqueuedLog = s.enqueuedLog := by
  by_cases h : s.drains = []
  · rw [finishOnce_of_no_drain ar h]
  · obtain ⟨st, hst⟩ := runBatch_settles ar
    obtain ⟨b, rest, hd⟩ : ∃ b rest, s.drains = b :: rest := by
      cases hdr : s.drains with
      | nil => exact absurd hdr h
      | cons b rest => exact ⟨b, rest, rfl⟩
    by_cases hq : s.queue = []
    · rw [finishOnce_done ar hd hq hst]
    · rw [finishOnce_more ar hd hq hst]

theorem inv_star {s s' : QueueState} (hinv : Inv s)
    (h : Relation.ReflTransGen QStep s s') : Inv s' := by
  induction h with
  | refl => exact hinv
  | tail _ hstep ih => exact inv_step ih hstep

theorem drainAll_flushes {s : QueueState} (hinv : Inv s)
    (ar0 ar1 : Nat → Except Nat Unit) :
    (drainAll ar0 ar1 s).drains = [] ∧ (drainAll ar0 ar1 s).queue = [] := by
  obtain ⟨hflag, hlen, hidle, _⟩ := hinv
  unfold drainAll
  by_cases h : s.drains = []
  · have hact : s.active = false := by
      cases hac : s.active with
      | false => rfl
      | true => exact absurd (hflag.mp hac) (by simp [h])
    have hq : s.queue = [] := hidle hact
    rw [finishOnce_of_no_drain ar0 h, finishOnce_of_no_drain ar1 h]
    exact ⟨h, hq⟩
  · obtain ⟨st0, hst0⟩ := runBatch_settles ar0
    obtain ⟨b, rest, hd⟩ : ∃ b rest, s.drains = b :: rest := by
      cases hdr : s.drains with
      | nil => exact absurd hdr h
      | cons b rest => exact ⟨b, rest, rfl⟩
    have hrest : rest = [] := by
      have := hlen
      rw [hd] at this
      simpa using this
    subst hrest
    by_cases hq : s.queue = []
    · rw [finishOnce_done ar0 hd hq hst0]
      rw [finishOnce_of_no_drain ar1 (by rfl)]
      exact ⟨rfl, hq⟩
    · rw [finishOnce_more ar0 hd hq hst0]
      obtain ⟨st1, hst1⟩ := runBatch_settles ar1
      rw [finishOnce_done ar1 rfl rfl hst1]
      exact ⟨rfl, rfl⟩

theorem runAttempts_two_error {ar : Nat → Except Nat Unit} {e2 : Nat}
    (h2 : ar 2 = .error e2) :
    runAttempts ar 2 =
      { settlement := some (.rejectedWith e2), appendCalls := 1, delays := [] } := by
  rw [runAttempts_eq, h2]
  simp

theorem runAttempts_one_error {ar : Nat → Except Nat Unit} {e1 e2 : Nat}
    (h1 : ar 1 = .error e1) (h2 : ar 2 = .error e2) :
    runAttempts ar 1 =
      { settlement := some (.rejectedWith e2), appendCalls := 2, delays := [2000] } := by
  rw [runAttempts_eq, h1]
  simp [runAttempts_two_error h2]

theorem runAttempts_one_ok {ar : Nat → Except Nat Unit}
    (h1 : ar 1 = .ok ()) :
    runAttempts ar 1 =
      { settlement := some .resolvedTrue, appendCalls := 1, delays := [] } := by
  rw [runAttempts_eq, h1]
  simp

/-- Claim C1: with tasks A, B, C pending (in that order) when a drain pass
starts, the pass claims the whole queue as one batch, the merged append
request carries A's rows, then B's rows, then C's rows, a first-try
success means exactly one `appendToSheet` call, and the batch-completion
step installs exactly `[A, B, C]` as the in-flight batch. -/
theorem queue_fifo_batch_ordering (A B C : OrderWriteTask) :
    claimBatch [A, B, C] = ([A, B, C], []) ∧
    batchRequest A [B, C] =
      { sheetId := A.sheetId, sheetName := A.sheetName,
        rows := A.rows ++ (B.rows ++ C.rows) } ∧
    (∀ ar : Nat → Except Nat Unit, ar 0 = .ok () →
      (runBatch ar).appendCalls = 1) ∧
    (∀ (s : QueueState) (b : List OrderWriteTask)
        (rest : List (List OrderWriteTask)) (ar : Nat → Except Nat Unit)
        (st : Settlement),
      s.queue = [A, B, C] → s.drains = b :: rest →
      (runBatch ar).settlement = some st →
      (finishOnce ar s).drains = [A, B, C] :: rest) := by
  refine ⟨rfl, by simp [batchRequest], ?_, ?_⟩
  · intro ar h0
    rw [runBatch, runAttempts_eq, h0]
    simp
  · intro s b rest ar st hqe hd hst
    rw [finishOnce_more ar hd (by rw [hqe]; simp) hst, hqe]

theorem queue_fifo_batch_ordering_witness :
    (runBatch (fun _ => Except.ok ())).appendCalls = 1 ∧
    (finishOnce (fun _ => Except.ok ())
        { queue := [⟨"id", "Orders", [["a"]]⟩, ⟨"id", "Orders", [["b"]]⟩,
                    ⟨"id", "Orders", [["c"]]⟩],
          active := true, drains := [[]], settled := [],
          enqueuedLog := [] }).drains =
      [[⟨"id", "Orders", [["a"]]⟩, ⟨"id", "Orders", [["b"]]⟩,
        ⟨"id", "Orders", [["c"]]⟩]] := by
  constructor
  · exact (queue_fifo_batch_ordering ⟨"id", "Orders", [["a"]]⟩
      ⟨"id", "Orders", [["b"]]⟩ ⟨"id", "Orders", [["c"]]⟩).2.2.1 _ rfl
  · exact (queue_fifo_batch_ordering ⟨"id", "Orders", [["a"]]⟩
      ⟨"id", "Orders", [["b"]]⟩ ⟨"id", "Orders", [["c"]]⟩).2.2.2 _ [] [] _
      .resolvedTrue rfl rfl (by rw [runBatch, runAttempts_eq]; simp)

/-- Claim C2: when the append primitive throws on all three attempts, the
batch run makes exactly 3 append calls, sleeps 1000ms then 2000ms
between them, and rejects every task of the batch with the error of the
third (final) attempt. -/
theorem queue_retry_exhaustion (ar : Nat → Except Nat Unit) (e0 e1 e2 : Nat)
    (h0 : ar 0 = .error e0) (h1 : ar 1 = .error e1) (h2 : ar 2 = .error e2) :
    runBatch ar =
      { settlement := some (.rejectedWith e2), appendCalls := 3,
        delays := [1000, 2000] } ∧
    ∀ (b : List OrderWriteTask) (t : OrderWriteTask), t ∈ b →
      (t, Settlement.rejectedWith e2) ∈ settleAll b (.rejectedWith e2) := by
  constructor
  · rw [runBatch, runAttempts_eq, h0]
    simp [runAttempts_one_error h1 h2]
  · intro b t ht
    simp only [settleAll, List.mem_map]
    exact ⟨t, ht, rfl⟩

theorem queue_retry_exhaustion_witness :
    runBatch (fun n => Except.error (100 + n)) =
      { settlement := some (.rejectedWith 102), appendCalls := 3,
        delays := [1000, 2000] } ∧
    (⟨"id", "Orders", [["a"]]⟩, Settlement.rejectedWith 102) ∈
      settleAll [⟨"id", "Orders", [["a"]]⟩] (.rejectedWith 102) := by
  have h := queue_retry_exhaustion (fun n => Except.error (100 + n))
    100 101 102 rfl rfl rfl
  exact ⟨h.1, h.2 _ _ (by simp)⟩

/-- Claim C3: when the first append attempt throws and the second succeeds,
the batch run makes exactly 2 append calls (none after the success),
sleeps 1000ms between them, and resolves every task with `true`. -/
theorem queue_success_resolution (ar : Nat → Except Nat Unit) (e0 : Nat)
    (h0 : ar 0 = .error e0) (h1 : ar 1 = .ok ()) :
    runBatch ar =
      { settlement := some .resolvedTrue, appendCalls := 2, delays := [1000] } ∧
    ∀ (b : List OrderWriteTask) (t : OrderWriteTask), t ∈ b →
      (t, Settlement.resolvedTrue) ∈ settleAll b .resolvedTrue := by
  constructor
  · rw [runBatch, runAttempts_eq, h0]
    simp [runAttempts_one_ok h1]
  · intro b t ht
    simp only [settleAll, List.mem_map]
    exact ⟨t, ht, rfl⟩

theorem queue_success_resolution_witness :
    runBatch (fun n => if n = 0 then Except.error 7 else Except.ok ()) =
      { settlement := some .resolvedTrue, appendCalls := 2, delays := [1000] } ∧
    (⟨"id", "Orders", [["a"]]⟩, Settlement.resolvedTrue) ∈
      settleAll [⟨"id", "Orders", [["a"]]⟩] .resolvedTrue := by
  have h := queue_success_resolution
    (fun n => if n = 0 then Except.error 7 else Except.ok ()) 7 rfl rfl
  exact ⟨h.1, h.2 _ _ (by simp)⟩

/-- Claim C4: from any reachable module state, for any behaviour of the append
primitive on the remaining batches (all-success, all-failure or mixed),
finitely many drain completions settle every enqueued task exactly once:
the settlement log becomes exactly the `queueOrderWrite` call history, in
order, with queue and in-flight batch empty. -/
theorem queue_every_task_settled (s : QueueState) (h : QReach s)
    (ar0 ar1 : Nat → Except Nat Unit) :
    Relation.ReflTransGen QStep s (drainAll ar0 ar1 s) ∧
    (drainAll ar0 ar1 s).enqueuedLog = s.enqueuedLog ∧
    (drainAll ar0 ar1 s).queue = [] ∧
    (drainAll ar0 ar1 s).drains = [] ∧
    (drainAll ar0 ar1 s).settled.map Prod.fst = s.enqueuedLog := by
  have hinv := reach_inv h
  have hstar : Relation.ReflTransGen QStep s (drainAll ar0 ar1 s) :=
    (finishOnce_star ar0 s).trans (finishOnce_star ar1 (finishOnce ar0 s))
  have hflush := drainAll_flushes hinv ar0 ar1
  have hinv' := inv_star hinv hstar
  have hlog : (drainAll ar0 ar1 s).enqueuedLog = s.enqueuedLog := by
    unfold drainAll
    rw [finishOnce_log, finishOnce_log]
  refine ⟨hstar, hlog, hflush.2, hflush.1, ?_⟩
  have hcons := hinv'.2.2.2
  rw [hflush.1, hflush.2] at hcons
  simpa [hlog] using hcons

theorem queue_every_task_settled_witness :
    QReach (enqueue initState ⟨"id", "Orders", [["a"]]⟩) ∧
    (drainAll (fun _ => Except.ok ()) (fun n => Except.error n)
        (enqueue initState ⟨"id", "Orders", [["a"]]⟩)).settled.map Prod.fst =
      (enqueue initState ⟨"id", "Orders", [["a"]]⟩).enqueuedLog := by
  have hr : QReach (enqueue initState ⟨"id", "Orders", [["a"]]⟩) :=
    QReach.step QReach.init (QStep.enqueue initState ⟨"id", "Orders", [["a"]]⟩)
  exact ⟨hr, (queue_every_task_settled _ hr (fun _ => Except.ok ())
    (fun n => Except.error n)).2.2.2.2⟩

/-- Claim C5: in every reachable state at most one drain instance exists and
the `orderWriteActive` flag is set exactly while one runs; a
`queueOrderWrite` call made while a drain is active only appends the
task to the pending queue (claimed only by a later batch) — the
in-flight batch and the drain set are untouched and no second drain
starts. -/
theorem queue_single_active_drain (s : QueueState) (h : QReach s) :
    s.drains.length ≤ 1 ∧
    (s.active = true ↔ s.drains ≠ []) ∧
    (∀ t : OrderWriteTask, s.active = true →
      enqueue s t =
        { s with queue := s.queue ++ [t],
                 enqueuedLog := s.enqueuedLog ++ [t] }) := by
  have hinv := reach_inv h
  exact ⟨hinv.2.1, hinv.1, fun t hact => enqueue_while_active t hact⟩

theorem queue_single_active_drain_witness :
    QReach (enqueue initState ⟨"id", "Orders", [["a"]]⟩) ∧
    (enqueue initState ⟨"id", "Orders", [["a"]]⟩).active = true ∧
    (enqueue initState ⟨"id", "Orders", [["a"]]⟩).drains.length ≤ 1 ∧
    enqueue (enqueue initState ⟨"id", "Orders", [["a"]]⟩) ⟨"id", "Orders", [["b"]]⟩ =
      { queue := [⟨"id", "Orders", [["b"]]⟩], active := true,
        drains := [[⟨"id", "Orders", [["a"]]⟩]], settled := [],
        enqueuedLog := [⟨"id", "Orders", [["a"]]⟩, ⟨"id", "Orders", [["b"]]⟩] } := by
  have hr : QReach (enqueue initState ⟨"id", "Orders", [["a"]]⟩) :=
    QReach.step QReach.init (QStep.enqueue initState ⟨"id", "Orders", [["a"]]⟩)
  have h := queue_single_active_drain _ hr
  refine ⟨hr, by decide, h.1, ?_⟩
  rw [h.2.2 ⟨"id", "Orders", [["b"]]⟩ (by decide)]
  decide

/-- Claim C6: the merged append request of every drain pass is addressed to
the first task's sheet and tab, with no check that the remaining tasks
target the same table, so a task for a different table has its rows
appended to the first task's table. -/
theorem queue_single_table_assumption :
    (∀ (first : OrderWriteTask) (others : List OrderWriteTask),
      (batchRequest first others).sheetId = first.sheetId ∧
      (batchRequest first others).sheetName = first.sheetName ∧
      (batchRequest first others).rows =
        first.rows ++ (others.map (fun t => t.rows)).flatten) ∧
    (batchRequest ⟨"idA", "Orders", [["a"]]⟩ [⟨"idB", "Inventory", [["b"]]⟩] =
        { sheetId := "idA", sheetName := "Orders", rows := [["a"], ["b"]] } ∧
      ("idB" : String) ≠ "idA" ∧ ("Inventory" : String) ≠ "Orders") := by
  refine ⟨fun first others => ⟨rfl, rfl, by simp [batchRequest]⟩, rfl, ?_, ?_⟩
  · decide
  · decide

end OrderQueue

namespace Cache

/-- Mirror of `CachedData<T>` from `types.ts`; times are `Date.now()` values in
milliseconds. -/
structure CachedData (T : Type) where
  data : T
  timestamp : Nat
  expiresAt : Nat
  deriving Repr, DecidableEq

/-- JS `Map.get`: value of the first (on a JS `Map`, only) entry for `k`. -/
def alookup {A : Type} : List (String × A) → String → Option A
  | [], _ => none
  | (k', v) :: rest, k => if k' = k then some v else alookup rest k

/-- JS `Map.set`: replace the entry for `k` in place, else append. -/
def ainsert {A : Type} : List (String × A) → String → A → List (String × A)
  | [], k, v => [(k, v)]
  | (k', v') :: rest, k, v =>
      if k' = k then (k, v) :: rest else (k', v') :: ainsert rest k v

/-- JS `Map.delete`: drop the entries for `k` (a JS `Map` holds at most
one, so dropping all occurrences agrees with it on unique-key lists). -/
def aerase {A : Type} (m : List (String × A)) (k : String) : List (String × A) :=
  m.filter (fun p => p.1 ≠ k)

/-- A live `setInterval` timer instance: its handle, the key it
refreshes and the refresh function its closure captured at
`setupAutoRefresh` time.  `clearInterval` on the handle kills it. -/
structure Timer (F : Type) where
  id : Nat
  key : String
  fn : F
  deriving Repr, DecidableEq

/-- The fields of a `CacheManager<T>` instance plus the set of live
timer instances and a fresh-handle counter (JS interval handles are
distinct while live).  `F` is the type of stored refresh functions; a
function's behaviour on one invocation is supplied externally as an
`Except` result, since callbacks are arbitrary effectful code. -/
structure CacheState (T F : Type) where
  cache : List (String × CachedData T)
  refreshCallbacks : List (String × F)
  refreshIntervals : List (String × Nat)
  timers : List (Timer F)
  nextTimerId : Nat
  ttl : Nat
  deriving Repr

/-- Constructor `new CacheManager(ttlMs)`. -/
def mkCacheManager (T F : Type) (ttlMs : Nat) : CacheState T F :=
  { cache := [], refreshCallbacks := [], refreshIntervals := [], timers := [],
    nextTimerId := 0, ttl := ttlMs }

namespace CacheState

variable {T F : Type}

/-- Method `get(key)`: the stored entry regardless of expiry, null if absent. -/
def get (s : CacheState T F) (key : String) : Option (CachedData T) :=
  alookup s.cache key

/-- Method `isFresh(key)`: `Date.now() < cached.expiresAt`, false if absent. -/
def isFresh (s : CacheState T F) (key : String) (now : Nat) : Bool :=
  match alookup s.cache key with
  | none => false
  | some cached => decide (now < cached.expiresAt)

/-- Method `set(key, data)`: store `data` with `timestamp = now` and
`expiresAt = now + ttl`. -/
def set (s : CacheState T F) (key : String) (data : T) (now : Nat) :
    CacheState T F :=
  { s with cache := ainsert s.cache key ⟨data, now, now + s.ttl⟩ }

/-- Method `getAge(key)`. -/
def getAge (s : CacheState T F) (key : String) (now : Nat) : Option Nat :=
  match alookup s.cache key with
  | none => none
  | some cached => some (now - cached.timestamp)

/-- Method `stopAutoRefresh(key)`: `clearInterval` the tracked handle (killing
that timer instance) and drop the tracking entry; no-op without one. -/
def stopAutoRefresh (s : CacheState T F) (key : String) : CacheState T F :=
  match alookup s.refreshIntervals key with
  | some id =>
      { s with
        timers := s.timers.filter (fun tm => tm.id != id)
        refreshIntervals := aerase s.refreshIntervals key }
  | none => s

/-- Method `delete(key)`: drop the cache entry, then `stopAutoRefresh(key)`;
the registered refresh callback is NOT removed. -/
def delete (s : CacheState T F) (key : String) : CacheState T F :=
  ({ s with cache := aerase s.cache key }).stopAutoRefresh key

/-- Method `clear()`: empty the cache, `clearInterval` every tracked handle,
and drop all interval-tracking entries and all refresh callbacks. -/
def clear (s : CacheState T F) : CacheState T F :=
  { s with
    cache := []
    timers := s.timers.filter
      (fun tm => !((s.refreshIntervals.map Prod.snd).contains tm.id))
    refreshIntervals := []
    refreshCallbacks := [] }

/-- Method `setupAutoRefresh(key, refreshFn)`: store the callback, cancel any
existing timer for the key, then start a fresh interval timer (capturing
`refreshFn`) and track its handle. -/
def setupAutoRefresh (s : CacheState T F) (key : String) (fn : F) :
    CacheState T F :=
  let s1 : CacheState T F :=
    { s with refreshCallbacks := ainsert s.refreshCallbacks key fn }
  let s2 := s1.stopAutoRefresh key
  { s2 with
    timers := s2.timers ++ [⟨s2.nextTimerId, key, fn⟩]
    refreshIntervals := ainsert s2.refreshIntervals key s2.nextTimerId
    nextTimerId := s2.nextTimerId + 1 }

/-- The body of the interval handler installed by `setupAutoRefresh`,
fired for key `key` with captured function `fn`: on success store the
result, on failure only log — the state is untouched and no error
escapes (the handler catches it). -/
def autoFire {E : Type} (run : F → Except E T) (s : CacheState T F)
    (key : String) (fn : F) (now : Nat) : CacheState T F :=
  match run fn with
  | .ok newData => s.set key newData now
  | .error _ => s

/-- Method `forceRefresh(key)`: null without a registered callback; otherwise
invoke it, store and return the new data on success, rethrow its error
(leaving the state unchanged) on failure. -/
def forceRefresh {E : Type} (run : F → Except E T) (s : CacheState T F)
    (key : String) (now : Nat) : Except E (Option T) × CacheState T F :=
  match alookup s.refreshCallbacks key with
  | none => (.ok none, s)
  | some fn =>
      match run fn with
      | .ok newData => (.ok (some newData), s.set key newData now)
      | .error e => (.error e, s)

end CacheState

theorem alookup_ainsert_self {A : Type} (m : List (String × A)) (k : String)
    (v : A) : alookup (ainsert m k v) k = some v := by
  induction m with
  | nil => simp [ainsert, alookup]
  | cons p rest ih =>
    by_cases h : p.1 = k
    · simp [ainsert, h, alookup]
    · simp [ainsert, h, alookup, ih]

theorem alookup_ainsert_ne {A : Type} (m : List (String × A)) {k k' : String}
    (v : A) (h : k' ≠ k) : alookup (ainsert m k v) k' = alookup m k' := by
  have h' : ¬(k = k') := Ne.symm h
  induction m with
  | nil => simp [ainsert, alookup, h']
  | cons p rest ih =>
    by_cases hp : p.1 = k
    · subst hp
      simp [ainsert, alookup, h']
    · simp only [ainsert, if_neg hp, alookup]
      by_cases hp' : p.1 = k'
      · simp [hp']
      · simp [hp', ih]

theorem alookup_aerase_self {A : Type} (m : List (String × A)) (k : String) :
    alookup (aerase m k) k = none := by
  induction m with
  | nil => rfl
  | cons p rest ih =>
    by_cases h : p.1 = k
    · simpa [aerase, h] using ih
    · simpa [aerase, h, alookup] using ih

theorem alookup_aerase_ne {A : Type} (m : List (String × A)) {k k' : String}
    (h : k' ≠ k) : alookup (aerase m k) k' = alookup m k' := by
  induction m with
  | nil => rfl
  | cons p rest ih =>
    simp only [aerase, List.filter_cons] at ih ⊢
    by_cases hp : p.1 = k
    · have hdec : (decide (p.1 ≠ k)) = false := by simp [hp]
      have hp' : ¬(p.1 = k') := by rw [hp]; exact Ne.symm h
      simp only [hdec, Bool.false_eq_true, if_false]
      rw [ih]
      simp [alookup, hp']
    · have hdec : (decide (p.1 ≠ k)) = true := by simp [hp]
      simp only [hdec, if_true]
      by_cases hp' : p.1 = k'
      · simp [alookup, hp']
      · simp only [alookup, if_neg hp']
        simpa using ih

theorem alookup_mem_values {A : Type} {m : List (String × A)} {k : String}
    {v : A} (h : alookup m k = some v) : v ∈ m.map Prod.snd := by
  induction m with
  | nil => simp [alookup] at h
  | cons p rest ih =>
    by_cases hp : p.1 = k
    · simp only [alookup, if_pos hp] at h
      simp [← Option.some_inj.mp h]
    · simp only [alookup, if_neg hp] at h
      simp [ih h]

/-- The live timers refreshing key `k`. -/
def keyTimers {T F : Type} (s : CacheState T F) (k : String) : List (Timer F) :=
  s.timers.filter (fun tm => tm.key == k)

/-- Timer bookkeeping invariant of a `CacheManager`: every live timer is
the one tracked in `refreshIntervals` under its key, live handles are
pairwise distinct, and all are older than the next fresh handle. -/
def TInv {T F : Type} (s : CacheState T F) : Prop :=
  (∀ tm ∈ s.timers, alookup s.refreshIntervals tm.key = some tm.id) ∧
  (s.timers.map Timer.id).Nodup ∧
  (∀ tm ∈ s.timers, tm.id < s.nextTimerId)

/-- Cache-manager states reachable from construction through the public
mutating methods (`forceRefresh` and the interval handler mutate state
only through `set`, so they are covered by the `set` step). -/
inductive CReach {T F : Type} : CacheState T F → Prop where
  | init (ttlMs : Nat) : CReach (mkCacheManager T F ttlMs)
  | set {s : CacheState T F} (h : CReach s) (k : String) (v : T) (now : Nat) :
      CReach (s.set k v now)
  | delete {s : CacheState T F} (h : CReach s) (k : String) : CReach (s.delete k)
  | clear {s : CacheState T F} (h : CReach s) : CReach s.clear
  | setup {s : CacheState T F} (h : CReach s) (k : String) (fn : F) :
      CReach (s.setupAutoRefresh k fn)
  | stop {s : CacheState T F} (h : CReach s) (k : String) :
      CReach (s.stopAutoRefresh k)

theorem tinv_init {T F : Type} (ttlMs : Nat) : TInv (mkCacheManager T F ttlMs) := by
  refine ⟨?_, ?_, ?_⟩ <;> simp [mkCacheManager, TInv]

theorem tinv_stop {T F : Type} {s : CacheState T F} (hinv : TInv s) (k : String) :
    TInv (s.stopAutoRefresh k) := by
  obtain ⟨h1, h2, h3⟩ := hinv
  unfold CacheState.stopAutoRefresh
  cases hlk : alookup s.refreshIntervals k with
  | none => exact ⟨h1, h2, h3⟩
  | some id =>
    refine ⟨?_, ?_, ?_⟩
    · intro tm htm
      have hmem := List.mem_filter.mp htm
      have hne : tm.id ≠ id := by simpa using hmem.2
      have hl0 := h1 tm hmem.1
      have hkne : tm.key ≠ k := by
        intro he
        rw [he, hlk] at hl0
        exact hne (Option.some_inj.mp hl0).symm
      rw [alookup_aerase_ne _ hkne]
      exact hl0
    · exact h2.sublist ((List.filter_sublist _).map Timer.id)
    · intro tm htm
      exact h3 tm (List.mem_filter.mp htm).1

theorem stop_timers_key {T F : Type} {s : CacheState T F} (hinv : TInv s)
    (k : String) :
    ∀ tm ∈ (s.stopAutoRefresh k).timers, tm ∈ s.timers ∧ tm.key ≠ k := by
  obtain ⟨h1, _, _⟩ := hinv
  unfold CacheState.stopAutoRefresh
  cases hlk : alookup s.refreshIntervals k with
  | none =>
    intro tm htm
    refine ⟨htm, ?_⟩
    intro he
    have := h1 tm htm
    rw [he, hlk] at this
    exact Option.noConfusion this
  | some id =>
    intro tm htm
    have hmem := List.mem_filter.mp htm
    have hne : tm.id ≠ id := by simpa using hmem.2
    refine ⟨hmem.1, ?_⟩
    intro he
    have := h1 tm hmem.1
    rw [he, hlk] at this
    exact hne (Option.some_inj.mp this).symm

theorem tinv_extend {T F : Type} {s2 : CacheState T F} (hinv : TInv s2)
    (k : String) (fn : F) (hkey : ∀ tm ∈ s2.timers, tm.key ≠ k) :
    TInv { s2 with
      timers := s2.timers ++ [⟨s2.nextTimerId, k, fn⟩]
      refreshIntervals := ainsert s2.refreshIntervals k s2.nextTimerId
      nextTimerId := s2.nextTimerId + 1 } := by
  obtain ⟨h1, h2, h3⟩ := hinv
  refine ⟨?_, ?_, ?_⟩
  · intro tm htm
    rcases List.mem_append.mp htm with hold | hnew
    · rw [alookup_ainsert_ne _ _ (hkey tm hold)]
      exact h1 tm hold
    · have : tm = ⟨s2.nextTimerId, k, fn⟩ := by simpa using hnew
      subst this
      exact alookup_ainsert_self _ _ _
  · rw [List.map_append]
    rw [List.nodup_append]
    refine ⟨h2, by simp, ?_⟩
    intro a ha hb
    have ha' : a ∈ s2.timers.map Timer.id := ha
    obtain ⟨tm, htm, rfl⟩ := List.mem_map.mp ha'
    have : tm.id = s2.nextTimerId := by simpa using hb
    exact absurd this (Nat.ne_of_lt (h3 tm htm))
  · intro tm htm
    rcases List.mem_append.mp htm with hold | hnew
    · exact Nat.lt_succ_of_lt (h3 tm hold)
    · have : tm = ⟨s2.nextTimerId, k, fn⟩ := by simpa using hnew
      subst this
      exact Nat.lt_succ_self _

theorem tinv_setup {T F : Type} {s : CacheState T F} (hinv : TInv s)
    (k : String) (fn : F) : TInv (s.setupAutoRefresh k fn) := by
  have hinv1 : TInv { s with refreshCallbacks := ainsert s.refreshCallbacks k fn } :=
    hinv
  exact tinv_extend (tinv_stop hinv1 k) k fn
    (fun tm htm => (stop_timers_key hinv1 k tm htm).2)

theorem tinv_delete {T F : Type} {s : CacheState T F} (hinv : TInv s)
    (k : String) : TInv (s.delete k) := by
  have hinv1 : TInv { s with cache := aerase s.cache k } := hinv
  exact tinv_stop hinv1 k

theorem clear_timers_nil {T F : Type} {s : CacheState T F} (hinv : TInv s) :
    (s.clear).timers = [] := by
  apply List.filter_eq_nil_iff.mpr
  intro tm htm
  have := alookup_mem_values (hinv.1 tm htm)
  simp only [Bool.not_eq_true', Bool.not_eq_false]
  simpa using this

theorem tinv_clear {T F : Type} {s : CacheState T F} (hinv : TInv s) :
    TInv s.clear := by
  have hnil := clear_timers_nil hinv
  refine ⟨?_, ?_, ?_⟩
  · intro tm htm
    rw [hnil] at htm
    exact absurd htm (List.not_mem_nil tm)
  · rw [show (s.clear).timers.map Timer.id = [] by rw [hnil]; rfl]
    exact List.nodup_nil
  · intro tm htm
    rw [hnil] at htm
    exact absurd htm (List.not_mem_nil tm)

theorem tinv_set {T F : Type} {s : CacheState T F} (hinv : TInv s)
    (k : String) (v : T) (now : Nat) : TInv (s.set k v now) :=
  hinv

theorem creach_tinv {T F : Type} {s : CacheState T F} (h : CReach s) : TInv s := by
  induction h with
  | init ttlMs => exact tinv_init ttlMs
  | set _ k v now ih => exact tinv_set ih k v now
  | delete _ k ih => exact tinv_delete ih k
  | clear _ ih => exact tinv_clear ih
  | setup _ k fn ih => exact tinv_setup ih k fn
  | stop _ k ih => exact tinv_stop ih k

theorem keyTimers_le_one {T F : Type} {s : CacheState T F} (hinv : TInv s)
    (k : String) : (keyTimers s k).length ≤ 1 := by
  obtain ⟨h1, h2, _⟩ := hinv
  match hl : keyTimers s k with
  | [] => simp
  | [x] => simp
  | x :: y :: rest =>
    exfalso
    have hsub : List.Sublist ((keyTimers s k).map Timer.id)
        (s.timers.map Timer.id) :=
      (List.filter_sublist _).map Timer.id
    have hnd : ((keyTimers s k).map Timer.id).Nodup := h2.sublist hsub
    rw [hl] at hnd
    have hx : x ∈ keyTimers s k := by rw [hl]; exact List.mem_cons_self _ _
    have hy : y ∈ keyTimers s k := by
      rw [hl]; exact List.mem_cons_of_mem _ (List.mem_cons_self _ _)
    have hxk : x.key = k := by
      have := (List.mem_filter.mp hx).2
      simpa using this
    have hyk : y.key = k := by
      have := (List.mem_filter.mp hy).2
      simpa using this
    have hxl := h1 x (List.mem_filter.mp hx).1
    have hyl := h1 y (List.mem_filter.mp hy).1
    rw [hxk] at hxl
    rw [hyk] at hyl
    have hid : x.id = y.id := by
      have := hxl.symm.trans hyl
      exact Option.some_inj.mp this
    have : x.id ∉ (y :: rest).map Timer.id := (List.nodup_cons.mp hnd).1
    exact this (by simp [hid])

theorem setup_keyTimers_one {T F : Type} {s : CacheState T F} (hinv : TInv s)
    (k : String) (fn : F) :
    keyTimers (s.setupAutoRefresh k fn) k = [⟨s.nextTimerId, k, fn⟩] := by
  have hinv1 : TInv { s with refreshCallbacks := ainsert s.refreshCallbacks k fn } :=
    hinv
  have hkey := stop_timers_key hinv1 k
  unfold CacheState.setupAutoRefresh keyTimers
  simp only [List.filter_append]
  have hstopnext :
      (({ s with refreshCallbacks := ainsert s.refreshCallbacks k fn } :
        CacheState T F).stopAutoRefresh k).nextTimerId = s.nextTimerId := by
    unfold CacheState.stopAutoRefresh
    cases hlk : alookup s.refreshIntervals k <;> rfl
  rw [List.filter_eq_nil_iff.mpr ?hnil]
  · simp [hstopnext]
  case hnil =>
    intro tm htm
    have := (hkey tm htm).2
    simpa using this

theorem stop_cache {T F : Type} (s : CacheState T F) (k : String) :
    (s.stopAutoRefresh k).cache = s.cache := by
  unfold CacheState.stopAutoRefresh
  cases alookup s.refreshIntervals k <;> rfl

theorem stop_callbacks {T F : Type} (s : CacheState T F) (k : String) :
    (s.stopAutoRefresh k).refreshCallbacks = s.refreshCallbacks := by
  unfold CacheState.stopAutoRefresh
  cases alookup s.refreshIntervals k <;> rfl

theorem stop_ttl {T F : Type} (s : CacheState T F) (k : String) :
    (s.stopAutoRefresh k).ttl = s.ttl := by
  unfold CacheState.stopAutoRefresh
  cases alookup s.refreshIntervals k <;> rfl

theorem delete_cache_lookup {T F : Type} (s : CacheState T F) (k : String) :
    (s.delete k).get k = none := by
  unfold CacheState.get CacheState.delete
  rw [stop_cache]
  exact alookup_aerase_self _ _

theorem delete_callbacks {T F : Type} (s : CacheState T F) (k : String) :
    (s.delete k).refreshCallbacks = s.refreshCallbacks := by
  unfold CacheState.delete
  rw [stop_callbacks]

theorem delete_ttl {T F : Type} (s : CacheState T F) (k : String) :
    (s.delete k).ttl = s.ttl := by
  unfold CacheState.delete
  rw [stop_ttl]

theorem get_set_self {T F : Type} (s : CacheState T F) (k : String) (v : T)
    (now : Nat) : (s.set k v now).get k = some ⟨v, now, now + s.ttl⟩ := by
  unfold CacheState.get CacheState.set
  exact alookup_ainsert_self _ _ _

/-- Claim C7: after `set(k, v)` at time `t0`, `isFresh(k)` is true exactly
strictly before `t0 + ttl` and false from `t0 + ttl` on, while `get(k)`
returns the stored entry `⟨v, t0, t0 + ttl⟩` (expiry plays no role in
`get`); `get(k)` is null after `delete(k)` or `clear()`, and on a key
never set. -/
theorem cache_freshness {T F : Type} (s : CacheState T F) (k : String) (v : T)
    (t0 ttlMs : Nat) :
    (s.set k v t0).get k = some ⟨v, t0, t0 + s.ttl⟩ ∧
    (∀ t : Nat, (s.set k v t0).isFresh k t = decide (t < t0 + s.ttl)) ∧
    ((s.set k v t0).delete k).get k = none ∧
    ((s.set k v t0).clear).get k = none ∧
    (mkCacheManager T F ttlMs).get k = none := by
  refine ⟨get_set_self s k v t0, ?_, delete_cache_lookup _ k, rfl, rfl⟩
  intro t
  unfold CacheState.isFresh
  rw [show alookup (s.set k v t0).cache k = some ⟨v, t0, t0 + s.ttl⟩ from
    get_set_self s k v t0]

/-- Claim C8: `forceRefresh(k)` with no registered callback returns null and
changes nothing; with a callback that succeeds it stores the result via
`set` and returns it; with a callback that throws it rethrows that very
error and leaves the whole state (cached entry included) unchanged. -/
theorem cache_force_refresh {T F E : Type} (run : F → Except E T)
    (s : CacheState T F) (k : String) (now : Nat) :
    (alookup s.refreshCallbacks k = none →
      CacheState.forceRefresh run s k now = (.ok none, s)) ∧
    (∀ fn v, alookup s.refreshCallbacks k = some fn → run fn = .ok v →
      CacheState.forceRefresh run s k now = (.ok (some v), s.set k v now) ∧
      (s.set k v now).get k = some ⟨v, now, now + s.ttl⟩) ∧
    (∀ fn e, alookup s.refreshCallbacks k = some fn → run fn = .error e →
      CacheState.forceRefresh run s k now = (.error e, s)) := by
  refine ⟨?_, ?_, ?_⟩
  · intro hnone
    unfold CacheState.forceRefresh
    rw [hnone]
  · intro fn v hfn hok
    refine ⟨?_, get_set_self s k v now⟩
    unfold CacheState.forceRefresh
    rw [hfn]
    simp [hok]
  · intro fn e hfn herr
    unfold CacheState.forceRefresh
    rw [hfn]
    simp [herr]

/-- A concrete refresh-function interpretation for witnesses: callback
handle 0 succeeds with 42, every other handle throws error 7. -/
def sampleRun : Nat → Except Nat Nat :=
  fun n => if n = 0 then Except.ok 42 else Except.error 7

theorem cache_force_refresh_witness :
    CacheState.forceRefresh sampleRun
      { cache := [], refreshCallbacks := [("good", 0), ("bad", 1)],
        refreshIntervals := [], timers := [], nextTimerId := 0, ttl := 30000 }
      "missing" 5 =
      (.ok none,
        { cache := [], refreshCallbacks := [("good", 0), ("bad", 1)],
          refreshIntervals := [], timers := [], nextTimerId := 0, ttl := 30000 }) ∧
    CacheState.forceRefresh sampleRun
      { cache := [], refreshCallbacks := [("good", 0), ("bad", 1)],
        refreshIntervals := [], timers := [], nextTimerId := 0, ttl := 30000 }
      "good" 5 =
      (.ok (some 42),
        CacheState.set
          { cache := [], refreshCallbacks := [("good", 0), ("bad", 1)],
            refreshIntervals := [], timers := [], nextTimerId := 0, ttl := 30000 }
          "good" 42 5) ∧
    CacheState.forceRefresh sampleRun
      { cache := [], refreshCallbacks := [("good", 0), ("bad", 1)],
        refreshIntervals := [], timers := [], nextTimerId := 0, ttl := 30000 }
      "bad" 5 =
      (.error 7,
        { cache := [], refreshCallbacks := [("good", 0), ("bad", 1)],
          refreshIntervals := [], timers := [], nextTimerId := 0, ttl := 30000 }) := by
  refine ⟨(cache_force_refresh sampleRun _ "missing" 5).1 (by simp [alookup]),
    ((cache_force_refresh sampleRun _ "good" 5).2.1 0 42 (by simp [alookup]) rfl).1,
    (cache_force_refresh sampleRun _ "bad" 5).2.2 1 7 (by simp [alookup]) rfl⟩

/-- Claim C9: when the interval handler fires for key `k`, a successful
refresh stores the result via `set` (fresh timestamp and expiry); a
throwing refresh is swallowed and leaves the state — hence `get(k)` —
exactly as before the fire; every reachable manager has at most one live
timer per key, and re-registering `setupAutoRefresh` for `k` cancels the
prior timer, leaving exactly the newly created one. -/
theorem cache_auto_refresh {T F E : Type} (run : F → Except E T)
    (s : CacheState T F) (k : String) (fn : F) (now : Nat) :
    (∀ v, run fn = .ok v →
      CacheState.autoFire run s k fn now = s.set k v now ∧
      (CacheState.autoFire run s k fn now).get k = some ⟨v, now, now + s.ttl⟩) ∧
    (∀ e, run fn = .error e → CacheState.autoFire run s k fn now = s) ∧
    (CReach s → ∀ k', (keyTimers s k').length ≤ 1) ∧
    (CReach s →
      keyTimers (s.setupAutoRefresh k fn) k = [⟨s.nextTimerId, k, fn⟩]) := by
  refine ⟨?_, ?_, ?_, ?_⟩
  · intro v hok
    have heq : CacheState.autoFire run s k fn now = s.set k v now := by
      unfold CacheState.autoFire
      rw [hok]
    exact ⟨heq, by rw [heq]; exact get_set_self s k v now⟩
  · intro e herr
    unfold CacheState.autoFire
    rw [herr]
  · intro hr k'
    exact keyTimers_le_one (creach_tinv hr) k'
  · intro hr
    exact setup_keyTimers_one (creach_tinv hr) k fn

theorem cache_auto_refresh_witness :
    CacheState.autoFire sampleRun
      ((mkCacheManager Nat Nat 30000).setupAutoRefresh "k" 0) "k" 0 100 =
      ((mkCacheManager Nat Nat 30000).setupAutoRefresh "k" 0).set "k" 42 100 ∧
    CacheState.autoFire sampleRun
      ((mkCacheManager Nat Nat 30000).setupAutoRefresh "k" 0) "k" 1 100 =
      (mkCacheManager Nat Nat 30000).setupAutoRefresh "k" 0 ∧
    keyTimers (CacheState.setupAutoRefresh
        ((mkCacheManager Nat Nat 30000).setupAutoRefresh "k" 0) "k" 1) "k" =
      [⟨((mkCacheManager Nat Nat 30000).setupAutoRefresh "k" 0).nextTimerId,
        "k", 1⟩] := by
  refine ⟨?_, ?_, ?_⟩
  · exact ((cache_auto_refresh sampleRun
      ((mkCacheManager Nat Nat 30000).setupAutoRefresh "k" 0) "k" 0 100).1
        42 rfl).1
  · exact (cache_auto_refresh sampleRun
      ((mkCacheManager Nat Nat 30000).setupAutoRefresh "k" 0) "k" 1 100).2.1
        7 rfl
  · exact (cache_auto_refresh sampleRun
      ((mkCacheManager Nat Nat 30000).setupAutoRefresh "k" 0) "k" 1 100).2.2.2
        (CReach.setup (CReach.init 30000) "k" 0)

/-- Claim C10: `delete(k)` removes the entry and cancels the timer but keeps
the registered refresh callback, so a later `forceRefresh(k)` still
invokes it and re-creates the entry; `clear()` also wipes the callbacks,
so afterwards `forceRefresh` returns null for every key. -/
theorem cache_delete_vs_clear {T F E : Type} (run : F → Except E T)
    (s : CacheState T F) (k : String) (now : Nat) :
    (s.delete k).refreshCallbacks = s.refreshCallbacks ∧
    (s.delete k).get k = none ∧
    (∀ fn v, alookup s.refreshCallbacks k = some fn → run fn = .ok v →
      CacheState.forceRefresh run (s.delete k) k now =
        (.ok (some v), (s.delete k).set k v now) ∧
      ((s.delete k).set k v now).get k = some ⟨v, now, now + s.ttl⟩) ∧
    (s.clear).refreshCallbacks = [] ∧
    (∀ k', CacheState.forceRefresh run s.clear k' now = (.ok none, s.clear)) := by
  refine ⟨delete_callbacks s k, delete_cache_lookup s k, ?_, rfl, fun k' => rfl⟩
  intro fn v hfn hok
  have hfn' : alookup (s.delete k).refreshCallbacks k = some fn := by
    rw [delete_callbacks s k]
    exact hfn
  constructor
  · unfold CacheState.forceRefresh
    rw [hfn']
    simp [hok]
  · rw [show ((s.delete k).set k v now).get k =
        some ⟨v, now, now + (s.delete k).ttl⟩ from get_set_self _ k v now]
    rw [delete_ttl s k]

theorem cache_delete_vs_clear_witness :
    CacheState.forceRefresh sampleRun
      (CacheState.delete
        (((mkCacheManager Nat Nat 30000).setupAutoRefresh "k" 0).set "k" 9 0)
        "k") "k" 5 =
      (.ok (some 42),
        CacheState.set
          (CacheState.delete
            (((mkCacheManager Nat Nat 30000).setupAutoRefresh "k" 0).set "k" 9 0)
            "k") "k" 42 5) ∧
    (CacheState.delete
        (((mkCacheManager Nat Nat 30000).setupAutoRefresh "k" 0).set "k" 9 0)
        "k").get "k" = none ∧
    CacheState.forceRefresh sampleRun
      (CacheState.clear
        (((mkCacheManager Nat Nat 30000).setupAutoRefresh "k" 0).set "k" 9 0))
      "k" 5 =
      (.ok none,
        CacheState.clear
          (((mkCacheManager Nat Nat 30000).setupAutoRefresh "k" 0).set "k" 9 0)) := by
  have h := cache_delete_vs_clear sampleRun
    (((mkCacheManager Nat Nat 30000).setupAutoRefresh "k" 0).set "k" 9 0) "k" 5
  refine ⟨(h.2.2.1 0 42 ?_ rfl).1, h.2.1, h.2.2.2.2 "k"⟩
  simp [mkCacheManager, CacheState.setupAutoRefresh, CacheState.stopAutoRefresh,
    CacheState.set, alookup, ainsert]

end Cache
